import Mathlib

/-!
Verification of the termo session-bridge core against its natural-language
specification.  Text is modelled as `List Char` (`Str`); each definition is a
shallow embedding of the corresponding TypeScript function, with JavaScript
string semantics (global single-character regex replace, `split('\n')`,
`trim`, negative `slice`, empty-string falsiness) spelled out explicitly.
-/

namespace Termo

/-- Text, modelled as a list of characters. -/
abbrev Str := List Char

/-- Shorthand turning a Lean string literal into `Str`. -/
def str (s : String) : Str := s.data

/-- ASCII whitespace, the fragment of the JS `\s` class used by this code
(space, tab, newline, carriage return, vertical tab, form feed). -/
def isWsChar (c : Char) : Bool :=
  c = ' ' || c = '\t' || c = '\n' || c = '\r' || c = '\x0b' || c = '\x0c'

/-- JS `String.prototype.trimStart` (ASCII fragment). -/
def jsTrimStart (s : Str) : Str := s.dropWhile isWsChar

/-- JS `String.prototype.trimEnd` (ASCII fragment). -/
def jsTrimEnd (s : Str) : Str := (s.reverse.dropWhile isWsChar).reverse

/-- JS `String.prototype.trim` (ASCII fragment). -/
def jsTrim (s : Str) : Str := jsTrimStart (jsTrimEnd s)

/-- JS `s.split('\n')`: e.g. `"" ↦ [""]`, `"a\nb" ↦ ["a","b"]`. -/
def splitNl (s : Str) : List Str :=
  s.foldr
    (fun c acc =>
      if c = '\n' then [] :: acc
      else
        match acc with
        | h :: t => (c :: h) :: t
        | [] => [[c]])
    [[]]

/-- JS `lines.join('\n')`. -/
def joinNl : List Str → Str
  | [] => []
  | [x] => x
  | x :: xs => x ++ '\n' :: joinNl xs

/-- JS `s.slice(-m)` on strings: the last `m` characters, except that
`m = 0` yields the whole string (JS `slice(-0)` is `slice(0)`). -/
def jsSliceNeg (s : Str) (m : Nat) : Str :=
  if m = 0 then s else s.drop (s.length - m)

/-- JS `s.toLowerCase()`, character-wise. -/
def toLowerStr (s : Str) : Str := s.map Char.toLower

/-- JS `hay.includes(needle)`: substring containment. -/
def subStr (hay needle : Str) : Bool :=
  (List.range (hay.length + 1)).any (fun i => needle.isPrefixOf (hay.drop i))

/-! ### Basic lemmas about the string utilities -/

theorem splitNl_nil : splitNl [] = [[]] := rfl

theorem splitNl_cons (c : Char) (s : Str) :
    splitNl (c :: s) =
      if c = '\n' then [] :: splitNl s
      else
        match splitNl s with
        | h :: t => (c :: h) :: t
        | [] => [[c]] := by
  simp [splitNl]

theorem splitNl_ne_nil (s : Str) : splitNl s ≠ [] := by
  induction s with
  | nil => simp [splitNl_nil]
  | cons c rest ih =>
    rw [splitNl_cons]
    by_cases h : c = '\n'
    · simp [h]
    · simp only [if_neg h]
      cases hr : splitNl rest with
      | nil => simp
      | cons a t => simp

theorem joinNl_splitNl (s : Str) : joinNl (splitNl s) = s := by
  induction s with
  | nil => simp [splitNl, joinNl]
  | cons c rest ih =>
    rw [splitNl_cons]
    by_cases h : c = '\n'
    · subst h
      simp only [if_pos rfl]
      cases hr : splitNl rest with
      | nil => exact absurd hr (splitNl_ne_nil rest)
      | cons a t =>
        rw [hr] at ih
        simp [joinNl, ih]
    · simp only [if_neg h]
      cases hr : splitNl rest with
      | nil => exact absurd hr (splitNl_ne_nil rest)
      | cons a t =>
        rw [hr] at ih
        cases t with
        | nil => simp_all [joinNl]
        | cons b u => simp_all [joinNl]

/-- If the text contains no newline, `splitNl` yields a single line. -/
theorem splitNl_no_nl (s : Str) (h : '\n' ∉ s) : splitNl s = [s] := by
  induction s with
  | nil => simp [splitNl]
  | cons c rest ih =>
    rw [splitNl_cons]
    have hc : c ≠ '\n' := fun hc => h (hc ▸ List.mem_cons_self c rest)
    have hr : '\n' ∉ rest := fun hr => h (List.mem_cons_of_mem c hr)
    simp [hc, ih hr]

/-- Splitting around an explicit newline whose right part has no newline. -/
theorem splitNl_append_last (a p : Str) (hp : '\n' ∉ p) :
    splitNl (a ++ '\n' :: p) = splitNl a ++ [p] := by
  induction a with
  | nil => rw [List.nil_append, splitNl_cons, splitNl_no_nl p hp, splitNl_nil]; simp
  | cons c rest ih =>
    by_cases h : c = '\n'
    · simp [List.cons_append, splitNl_cons, h, ih]
    · simp only [List.cons_append, splitNl_cons, h, if_neg h, ih]
      cases hr : splitNl rest with
      | nil => exact absurd hr (splitNl_ne_nil rest)
      | cons x t => simp

/-! ### Substring lemmas -/

theorem subStr_spec (hay needle : Str) :
    subStr hay needle = true ↔ ∃ i, needle.isPrefixOf (hay.drop i) = true := by
  constructor
  · intro h
    rcases List.any_eq_true.mp h with ⟨i, _, hp⟩
    exact ⟨i, hp⟩
  · rintro ⟨i, hp⟩
    apply List.any_eq_true.mpr
    by_cases hi : i ≤ hay.length
    · exact ⟨i, List.mem_range.mpr (Nat.lt_succ_of_le hi), hp⟩
    · refine ⟨hay.length, List.mem_range.mpr (Nat.lt_succ_self _), ?_⟩
      have : hay.drop i = [] := List.drop_eq_nil_of_le (Nat.le_of_not_le hi)
      rw [this] at hp
      rw [List.drop_length]
      cases needle with
      | nil => simp [List.isPrefixOf]
      | cons a t => simp [List.isPrefixOf] at hp

/-- Dropping the head of the needle preserves substring containment. -/
theorem subStr_of_cons (hay : Str) (c : Char) (needle : Str)
    (h : subStr hay (c :: needle) = true) : subStr hay needle = true := by
  rcases (subStr_spec hay (c :: needle)).mp h with ⟨i, hp⟩
  cases hd : hay.drop i with
  | nil => rw [hd] at hp; simp [List.isPrefixOf] at hp
  | cons d rest =>
    rw [hd] at hp
    simp only [List.isPrefixOf, Bool.and_eq_true] at hp
    apply (subStr_spec hay needle).mpr
    refine ⟨i + 1, ?_⟩
    have : hay.drop (i + 1) = rest := by
      have h1 : hay.drop (i + 1) = (hay.drop i).drop 1 := by
        rw [List.drop_drop, Nat.add_comm]
      rw [h1, hd]; rfl
    rw [this]
    exact hp.2

/-! ## Screen classifier (`parseClaudeStatus`)

Embedding of `parseClaudeStatus` from the command-notifier/messaging module.
The source file is stored with a double UTF-8 encoding; the glyph literals
below are the decoded originals (spinner frames, check mark, four-pointed
star). -/

/-- The spinner glyph set of the regex character class in `parseClaudeStatus`. -/
def spinnerChars : List Char := ['○', '●', '◓', '◑']

/-- JS `lines.slice(-10)`: the trailing ten lines (all of them when fewer). -/
def lastTen (lines : List Str) : List Str := lines.drop (lines.length - 10)

/-- The text of the trailing ten-line window, as joined by the classifier. -/
def windowOf (screen : Str) : Str := joinNl (lastTen (splitNl screen))

/-- The spinner-glyph test `/[○●◓◑]/.test s`. -/
def hasSpinnerIn (s : Str) : Bool := s.any (fun c => spinnerChars.contains c)

/-- Result record of `parseClaudeStatus`. -/
structure ClaudeStatus where
  isThinking : Bool
  isReady : Bool
  isDone : Bool
  status : Str
deriving DecidableEq, Repr

/-- Embedding of `parseClaudeStatus(screen)`: classify assistant activity
from the trailing ten lines of the captured screen. -/
def parseClaudeStatus (screen : Str) : ClaudeStatus :=
  let lines := splitNl screen
  let lastTenLines := joinNl (lastTen lines)
  let lastTenLower := toLowerStr lastTenLines
  let hasSpinner := hasSpinnerIn lastTenLines
  let hasThinkingText := subStr lastTenLower (str "thinking") ||
                         subStr lastTenLower (str "✦ thinking") ||
                         subStr lastTenLines (str "esc to interrupt")
  let isThinking := hasSpinner || hasThinkingText
  let hasPrompt := (lastTen lines).any (fun line =>
    jsTrim line == ['>'] || (str "> ").isPrefixOf (jsTrim line))
  let isReady := hasPrompt && !isThinking
  let isDone := subStr lastTenLower (str "✓") ||
                (subStr lastTenLower (str "done") && !(subStr lastTenLower (str "undo")))
  let status := if isThinking then str "thinking"
                else if isReady then str "ready"
                else if isDone then str "done"
                else str "unknown"
  ⟨isThinking, isReady, isDone, status⟩

/-- The last non-blank line of the trailing window (a blank line is one whose
trim is empty); used to state the spec sentence about the ready prompt. -/
def lastNonBlankOfWindow (screen : Str) : Option Str :=
  ((lastTen (splitNl screen)).filter (fun l => !(jsTrim l).isEmpty)).getLast?

theorem mem_of_getLast_eq {α : Type} (l : List α) (a : α)
    (h : l.getLast? = some a) : a ∈ l := by
  induction l with
  | nil => simp [List.getLast?] at h
  | cons x xs ih =>
    cases xs with
    | nil => simp [List.getLast?] at h; simp [h]
    | cons y ys =>
      rw [List.getLast?_cons_cons] at h
      exact List.mem_cons_of_mem x (ih h)

/-- C3: a spinner glyph anywhere in the trailing ten-line window forces
`isThinking = true` and `status = "thinking"`, whatever "done" or check-mark
tokens appear elsewhere on the screen. -/
theorem c3_spinner_forces_thinking (screen : Str)
    (hsp : hasSpinnerIn (windowOf screen) = true) :
    (parseClaudeStatus screen).isThinking = true ∧
    (parseClaudeStatus screen).status = str "thinking" := by
  unfold windowOf at hsp
  simp [parseClaudeStatus, hsp]

/-- Witness for C3 at a concrete screen whose window holds a spinner glyph
next to both a check mark and the word "done". -/
theorem c3_witness :
    hasSpinnerIn (windowOf (str "✓ done\n●")) = true ∧
    (parseClaudeStatus (str "✓ done\n●")).isThinking = true ∧
    (parseClaudeStatus (str "✓ done\n●")).status = str "thinking" :=
  ⟨by decide, (c3_spinner_forces_thinking (str "✓ done\n●") (by decide)).1,
    (c3_spinner_forces_thinking (str "✓ done\n●") (by decide)).2⟩

/-- C4 (amended): a trailing window whose last non-blank line is exactly
`">"`, containing no spinner glyph, no interrupt hint, and additionally no
case-insensitive "thinking" token, classifies `ready = true`,
`thinking = false`. -/
theorem c4_bare_prompt_is_ready (screen : Str)
    (h1 : lastNonBlankOfWindow screen = some ['>'])
    (h2 : hasSpinnerIn (windowOf screen) = false)
    (h3 : subStr (windowOf screen) (str "esc to interrupt") = false)
    (h4 : subStr (toLowerStr (windowOf screen)) (str "thinking") = false) :
    (parseClaudeStatus screen).isReady = true ∧
    (parseClaudeStatus screen).isThinking = false := by
  have h5 : subStr (toLowerStr (windowOf screen)) (str "✦ thinking") = false := by
    cases hx : subStr (toLowerStr (windowOf screen)) (str "✦ thinking") with
    | false => rfl
    | true =>
      exfalso
      have e1 : subStr (toLowerStr (windowOf screen)) (' ' :: str "thinking") = true :=
        subStr_of_cons _ '✦' _ hx
      have e2 : subStr (toLowerStr (windowOf screen)) (str "thinking") = true :=
        subStr_of_cons _ ' ' _ e1
      rw [e2] at h4; exact Bool.noConfusion h4
  have hmem : (['>'] : Str) ∈ lastTen (splitNl screen) := by
    have := mem_of_getLast_eq _ _ h1
    exact (List.mem_filter.mp this).1
  have hprompt : (lastTen (splitNl screen)).any (fun line =>
      jsTrim line == ['>'] || (str "> ").isPrefixOf (jsTrim line)) = true :=
    List.any_eq_true.mpr ⟨['>'], hmem, by decide⟩
  unfold windowOf at h2 h3 h4 h5
  simp [parseClaudeStatus, h2, h3, h4, h5, hprompt]

/-- Witness for C4 (amended) at the screen `"hello\n>"`. -/
theorem c4_witness :
    lastNonBlankOfWindow (str "hello\n>") = some ['>'] ∧
    (parseClaudeStatus (str "hello\n>")).isReady = true ∧
    (parseClaudeStatus (str "hello\n>")).isThinking = false :=
  ⟨by decide,
    (c4_bare_prompt_is_ready (str "hello\n>") (by decide) (by decide) (by decide)
      (by decide)).1,
    (c4_bare_prompt_is_ready (str "hello\n>") (by decide) (by decide) (by decide)
      (by decide)).2⟩

/-- Counterexample to C4 as stated: on the screen `"thinking\n>"` the trailing
window has last non-blank line exactly `">"`, no spinner glyph and no
interrupt hint, yet the classifier reports not-ready and thinking, because
the "thinking" token (part of the thinking test in the code, omitted by the
claim) also blocks readiness. -/
theorem c4_claim_counterexample :
    lastNonBlankOfWindow (str "thinking\n>") = some ['>'] ∧
    hasSpinnerIn (windowOf (str "thinking\n>")) = false ∧
    subStr (windowOf (str "thinking\n>")) (str "esc to interrupt") = false ∧
    (parseClaudeStatus (str "thinking\n>")).isReady = false ∧
    (parseClaudeStatus (str "thinking\n>")).isThinking = true := by decide

/-- C5 (amended): `isDone` is true exactly when the trailing window contains
the check-mark glyph, or contains "done" while containing "undo" nowhere in
the window (any "undo" occurrence suppresses every "done" occurrence). -/
theorem c5_done_iff (screen : Str) :
    (parseClaudeStatus screen).isDone = true ↔
      (subStr (toLowerStr (windowOf screen)) (str "✓") = true ∨
       (subStr (toLowerStr (windowOf screen)) (str "done") = true ∧
        subStr (toLowerStr (windowOf screen)) (str "undo") = false)) := by
  simp [parseClaudeStatus, windowOf, Bool.or_eq_true, Bool.and_eq_true,
    Bool.not_eq_true']

/-- Counterexample to C5 as stated: the window `"undo\ndone"` contains an
occurrence of "done" that is not part of any "undo" occurrence ("done" is not
even a substring of "undo"), yet `isDone` is false. -/
theorem c5_claim_counterexample :
    (parseClaudeStatus (str "undo\ndone")).isDone = false ∧
    subStr (toLowerStr (windowOf (str "undo\ndone"))) (str "done") = true ∧
    subStr (str "undo") (str "done") = false := by decide

/-! ## Multiplexer bridge: keystroke escaping (`sendToTmux`)

The bridge escapes the text before embedding it between double quotes in
`tmux send-keys -t SESSION "ESCAPED"`.  The source performs seven chained
global single-character replacements. -/

/-- The double-quote character. -/
def dq : Char := Char.ofNat 34

/-- The backtick character. -/
def bq : Char := Char.ofNat 96

/-- JS `s.replace(/c/g, r)` for a single-character pattern `c`. -/
def replaceChar (c : Char) (r : Str) : Str → Str
  | [] => []
  | d :: rest => (if d = c then r else [d]) ++ replaceChar c r rest

/-- Embedding of the escaping chain of `sendToTmux`: backslashes first, then
double quotes, dollar signs, backticks, exclamation marks, percent signs
(doubled for tmux format strings), and newlines. -/
def sendKeysEscape (s : Str) : Str :=
  replaceChar '\n' ['\\', 'n']
    (replaceChar '%' ['%', '%']
      (replaceChar '!' ['\\', '!']
        (replaceChar bq ['\\', bq]
          (replaceChar '$' ['\\', '$']
            (replaceChar dq ['\\', dq]
              (replaceChar '\\' ['\\', '\\'] s))))))

/-- The per-character code of the claimed escaping scheme: every one of the
seven metacharacters is replaced by its escaped form, all other characters
pass through unchanged. -/
def escCharSpec (c : Char) : Str :=
  if c = '\\' then ['\\', '\\']
  else if c = dq then ['\\', dq]
  else if c = '$' then ['\\', '$']
  else if c = bq then ['\\', bq]
  else if c = '!' then ['\\', '!']
  else if c = '%' then ['%', '%']
  else if c = '\n' then ['\\', 'n']
  else [c]

/-- Inverse of a backslash escape pair in the escaped stream. -/
def unescChar (c : Char) : Option Char :=
  if c = '\\' then some '\\'
  else if c = dq then some dq
  else if c = '$' then some '$'
  else if c = bq then some bq
  else if c = '!' then some '!'
  else if c = 'n' then some '\n'
  else none

/-- Decoder of the escaped stream: a backslash must be followed by a known
escape, a percent sign must be doubled, and a bare (unescaped) double quote,
dollar sign, backtick, exclamation mark or newline is rejected — so decoding
succeeding means no shell-active character survives unescaped. -/
def sendKeysDecode : Str → Option Str
  | [] => some []
  | c :: rest =>
    if c = '\\' then
      match rest with
      | [] => none
      | d :: rest2 =>
        match unescChar d, sendKeysDecode rest2 with
        | some ch, some tail => some (ch :: tail)
        | _, _ => none
    else if c = '%' then
      match rest with
      | d :: rest2 => if d = '%' then (sendKeysDecode rest2).map (fun t => '%' :: t) else none
      | [] => none
    else if c = dq ∨ c = '$' ∨ c = bq ∨ c = '!' ∨ c = '\n' then none
    else (sendKeysDecode rest).map (fun t => c :: t)

theorem replaceChar_append (c : Char) (r x y : Str) :
    replaceChar c r (x ++ y) = replaceChar c r x ++ replaceChar c r y := by
  induction x with
  | nil => simp [replaceChar]
  | cons d rest ih => simp [replaceChar, ih]

/-- The chained replacements act character by character: the whole escaping
equals the one-pass map-concat of `escCharSpec`. -/
theorem sendKeysEscape_eq_flat (s : Str) :
    sendKeysEscape s = (s.map escCharSpec).flatten := by
  induction s with
  | nil => simp [sendKeysEscape, replaceChar]
  | cons c rest ih =>
    have step : sendKeysEscape (c :: rest) = sendKeysEscape [c] ++ sendKeysEscape rest := by
      show sendKeysEscape ([c] ++ rest) = _
      simp only [sendKeysEscape, replaceChar_append]
    rw [step, ih]
    have single : sendKeysEscape [c] = escCharSpec c := by
      by_cases h1 : c = '\\'
      · subst h1; decide
      · by_cases h2 : c = dq
        · subst h2; decide
        · by_cases h3 : c = '$'
          · subst h3; decide
          · by_cases h4 : c = bq
            · subst h4; decide
            · by_cases h5 : c = '!'
              · subst h5; decide
              · by_cases h6 : c = '%'
                · subst h6; decide
                · by_cases h7 : c = '\n'
                  · subst h7; decide
                  · simp [sendKeysEscape, replaceChar, escCharSpec,
                      h1, h2, h3, h4, h5, h6, h7]
    rw [single]
    simp

theorem sendKeysDecode_flat (s : Str) :
    sendKeysDecode ((s.map escCharSpec).flatten) = some s := by
  induction s with
  | nil => simp [sendKeysDecode]
  | cons c rest ih =>
    simp only [List.map_cons, List.flatten_cons]
    by_cases h1 : c = '\\'
    · subst h1
      simp [escCharSpec, sendKeysDecode, unescChar, ih]
    · by_cases h2 : c = dq
      · subst h2
        simp [escCharSpec, sendKeysDecode, unescChar, ih, dq]
      · by_cases h3 : c = '$'
        · subst h3
          simp [escCharSpec, sendKeysDecode, unescChar, ih, dq]
        · by_cases h4 : c = bq
          · subst h4
            simp [escCharSpec, sendKeysDecode, unescChar, ih, dq, bq]
          · by_cases h5 : c = '!'
            · subst h5
              simp [escCharSpec, sendKeysDecode, unescChar, ih, dq, bq]
            · by_cases h6 : c = '%'
              · subst h6
                simp [escCharSpec, sendKeysDecode, ih]
              · by_cases h7 : c = '\n'
                · subst h7
                  simp [escCharSpec, sendKeysDecode, unescChar, ih, dq, bq]
                · have hu : sendKeysDecode (c :: (List.map escCharSpec rest).flatten) =
                      (sendKeysDecode ((List.map escCharSpec rest).flatten)).map
                        (fun t => c :: t) := by
                    conv_lhs => rw [sendKeysDecode.eq_def]
                    simp [h1, h2, h3, h4, h5, h6, h7]
                  rw [escCharSpec, if_neg h1, if_neg h2, if_neg h3, if_neg h4,
                    if_neg h5, if_neg h6, if_neg h7]
                  simp only [List.singleton_append, hu, ih]
                  rfl

/-- C1: the `sendToTmux` escaping replaces every occurrence of each of the
seven metacharacters (backslash, double quote, dollar sign, backtick,
exclamation mark, percent sign, newline) by its escaped form and leaves all
other characters untouched, and the escaped stream decodes uniquely back to
the original text with no metacharacter left unescaped. -/
theorem c1_sendkeys_escapes_metachars (s : Str) :
    sendKeysEscape s = (s.map escCharSpec).flatten ∧
    sendKeysDecode (sendKeysEscape s) = some s :=
  ⟨sendKeysEscape_eq_flat s,
    (sendKeysEscape_eq_flat s) ▸ sendKeysDecode_flat s⟩

/-! ## Multiplexer bridge: session-name validation

Embedding of the per-user-parameterized bridge variant (the canonical one):
`isValidSessionName`, `sanitizeSessionName`, and the nine operations, each of
which resolves its optional session-name argument through the JS idiom
`sessionName ? sanitizeSessionName(sessionName) : DEFAULT_SESSION`, where an
empty string is falsy.  `DEFAULT_SESSION` comes from the environment and is
modelled as the parameter `d`.  Each operation is modelled as the external
tmux invocation it builds, or the validation error thrown before any
external call. -/

/-- The external tmux command an operation shells out to, at argument level. -/
inductive TmuxCmd where
  | hasSession (session : Str)
  | newSession (session : Str)
  | sendKeys (session : Str) (escapedText : Str)
  | sendKey (session : Str) (key : Str)
  | clearHistory (session : Str)
  | capture (session : Str)
  | killSession (session : Str)
  | renameSession (oldName : Str) (newName : Str)
deriving DecidableEq, Repr

/-- The error message thrown by `sanitizeSessionName`. -/
def sanitizeErrMsg : Str :=
  str "Session name must only contain letters, numbers, dash, and underscore (max 50 chars)"

/-- Embedding of `isValidSessionName`: `/^[a-zA-Z0-9_-]+$/.test(name) && name.length <= 50`. -/
def isValidSessionName (name : Str) : Bool :=
  (!name.isEmpty && name.all (fun c => c.isAlphanum || c = '_' || c = '-')) &&
    decide (name.length ≤ 50)

/-- Embedding of `sanitizeSessionName`: return the name or throw. -/
def sanitizeSessionName (name : Str) : Except Str Str :=
  if isValidSessionName name then Except.ok name else Except.error sanitizeErrMsg

/-- The per-operation resolution `sessionName ? sanitizeSessionName(sessionName)
: DEFAULT_SESSION` (an absent or empty name is falsy and falls back to the
default). -/
def resolveSession (d : Str) (sessionName : Option Str) : Except Str Str :=
  match sessionName with
  | some s => if !s.isEmpty then sanitizeSessionName s else Except.ok d
  | none => Except.ok d

/-- Embedding of `isTmuxSessionActive`: `tmux has-session -t SESSION`. -/
def isTmuxSessionActiveCmd (d : Str) (n : Option Str) : Except Str TmuxCmd :=
  (resolveSession d n).map TmuxCmd.hasSession

/-- Embedding of `createTmuxSession`: `tmux new-session -d -s SESSION`. -/
def createTmuxSessionCmd (d : Str) (n : Option Str) : Except Str TmuxCmd :=
  (resolveSession d n).map TmuxCmd.newSession

/-- Embedding of `sendToTmux`: `tmux send-keys -t SESSION "ESCAPED"`. -/
def sendToTmuxCmd (d : Str) (text : Str) (n : Option Str) : Except Str TmuxCmd :=
  (resolveSession d n).map (fun s => TmuxCmd.sendKeys s (sendKeysEscape text))

/-- Embedding of `sendEnterToTmux`: `tmux send-keys -t SESSION Enter`. -/
def sendEnterToTmuxCmd (d : Str) (n : Option Str) : Except Str TmuxCmd :=
  (resolveSession d n).map (fun s => TmuxCmd.sendKey s (str "Enter"))

/-- Embedding of `sendCtrlC`: `tmux send-keys -t SESSION C-c`. -/
def sendCtrlCCmd (d : Str) (n : Option Str) : Except Str TmuxCmd :=
  (resolveSession d n).map (fun s => TmuxCmd.sendKey s (str "C-c"))

/-- Embedding of `clearScrollback`: `tmux clear-history -t SESSION`. -/
def clearScrollbackCmd (d : Str) (n : Option Str) : Except Str TmuxCmd :=
  (resolveSession d n).map TmuxCmd.clearHistory

/-- Embedding of `capturePane`: `tmux capture-pane -t SESSION -p -S -500`. -/
def capturePaneCmd (d : Str) (n : Option Str) : Except Str TmuxCmd :=
  (resolveSession d n).map TmuxCmd.capture

/-- Embedding of `killTmuxSession`: `tmux kill-session -t SESSION`. -/
def killTmuxSessionCmd (d : Str) (n : Option Str) : Except Str TmuxCmd :=
  (resolveSession d n).map TmuxCmd.killSession

/-- Embedding of `renameTmuxSession`: sanitizes both names, then
`tmux rename-session -t OLD NEW`. -/
def renameTmuxSessionCmd (oldName newName : Str) : Except Str TmuxCmd := do
  let o ← sanitizeSessionName oldName
  let n ← sanitizeSessionName newName
  pure (TmuxCmd.renameSession o n)

/-- C2 (amended): every bridge operation rejects an explicitly provided,
non-empty session name that fails `^[A-Za-z0-9_-]{1,50}$` before building any
external command, and every valid name passes through to the invocation
unchanged; an absent or empty name instead falls back to the module default
without per-call validation. -/
theorem c2_bridge_validates_nonempty_names (d s text oldn : Str)
    (hne : s ≠ []) (hbad : isValidSessionName s = false) :
    isTmuxSessionActiveCmd d (some s) = Except.error sanitizeErrMsg ∧
    createTmuxSessionCmd d (some s) = Except.error sanitizeErrMsg ∧
    sendToTmuxCmd d text (some s) = Except.error sanitizeErrMsg ∧
    sendEnterToTmuxCmd d (some s) = Except.error sanitizeErrMsg ∧
    sendCtrlCCmd d (some s) = Except.error sanitizeErrMsg ∧
    clearScrollbackCmd d (some s) = Except.error sanitizeErrMsg ∧
    capturePaneCmd d (some s) = Except.error sanitizeErrMsg ∧
    killTmuxSessionCmd d (some s) = Except.error sanitizeErrMsg ∧
    renameTmuxSessionCmd s oldn = Except.error sanitizeErrMsg ∧
    (isValidSessionName oldn = true →
      renameTmuxSessionCmd oldn s = Except.error sanitizeErrMsg) ∧
    (∀ v, isValidSessionName v = true →
      resolveSession d (some v) = Except.ok v ∧
      sendToTmuxCmd d text (some v) =
        Except.ok (TmuxCmd.sendKeys v (sendKeysEscape text))) := by
  have hres : resolveSession d (some s) = Except.error sanitizeErrMsg := by
    have : (!s.isEmpty) = true := by
      cases s with
      | nil => exact absurd rfl hne
      | cons a t => rfl
    simp [resolveSession, this, sanitizeSessionName, hbad]
  refine ⟨?_, ?_, ?_, ?_, ?_, ?_, ?_, ?_, ?_, ?_, ?_⟩
  · simp [isTmuxSessionActiveCmd, hres, Except.map]
  · simp [createTmuxSessionCmd, hres, Except.map]
  · simp [sendToTmuxCmd, hres, Except.map]
  · simp [sendEnterToTmuxCmd, hres, Except.map]
  · simp [sendCtrlCCmd, hres, Except.map]
  · simp [clearScrollbackCmd, hres, Except.map]
  · simp [capturePaneCmd, hres, Except.map]
  · simp [killTmuxSessionCmd, hres, Except.map]
  · simp [renameTmuxSessionCmd, sanitizeSessionName, hbad, Except.bind, Except.map,
      Bind.bind]
  · intro hold
    simp [renameTmuxSessionCmd, sanitizeSessionName, hbad, hold, Except.bind,
      Except.map, Bind.bind]
  · intro v hv
    have hvne : (!v.isEmpty) = true := by
      cases v with
      | nil => simp [isValidSessionName] at hv
      | cons a t => rfl
    constructor
    · simp [resolveSession, hvne, sanitizeSessionName, hv]
    · simp [sendToTmuxCmd, resolveSession, hvne, sanitizeSessionName, hv, Except.map]

/-- Witness for C2 (amended) at the invalid name `"bad name"` (contains a
space) and the valid name `"work"`. -/
theorem c2_witness :
    isValidSessionName (str "bad name") = false ∧
    sendToTmuxCmd (str "termo-main") (str "hi") (some (str "bad name")) =
      Except.error sanitizeErrMsg ∧
    killTmuxSessionCmd (str "termo-main") (some (str "bad name")) =
      Except.error sanitizeErrMsg ∧
    sendToTmuxCmd (str "termo-main") (str "hi") (some (str "work")) =
      Except.ok (TmuxCmd.sendKeys (str "work") (sendKeysEscape (str "hi"))) :=
  ⟨by decide,
    (c2_bridge_validates_nonempty_names (str "termo-main") (str "bad name")
      (str "hi") (str "work") (by decide) (by decide)).2.2.1,
    (c2_bridge_validates_nonempty_names (str "termo-main") (str "bad name")
      (str "hi") (str "work") (by decide) (by decide)).2.2.2.2.2.2.2.1,
    ((c2_bridge_validates_nonempty_names (str "termo-main") (str "bad name")
      (str "hi") (str "work") (by decide) (by decide)).2.2.2.2.2.2.2.2.2.2
      (str "work") (by decide)).2⟩

/-- Counterexample to C2 as stated: the empty session name does not match
`^[A-Za-z0-9_-]{1,50}$`, yet `sendToTmux` with an explicitly passed empty
name is not rejected — the empty string is falsy, so the call silently falls
back to the default session and the external command is still built. -/
theorem c2_claim_counterexample :
    isValidSessionName [] = false ∧
    sendToTmuxCmd (str "termo-main") (str "hi") (some []) =
      Except.ok (TmuxCmd.sendKeys (str "termo-main") (sendKeysEscape (str "hi"))) :=
  ⟨by decide, rfl⟩

/-! ## Command Executor (`TerminalExecutor.runCommand`)

The data-event handlers and the close handler of `runCommand` are embedded
as a fold over the stream of stdout/stderr chunks followed by a pure close
computation.  `existsSync` is an oracle parameter, and spawning/killing the
external process is outside the model (session mutation via `updateCwd` is
elided; the claims are about the returned `ExecutionResult`). -/

/-- The result record produced by `runCommand` (`duration` elided: wall-clock
time is outside the model). -/
structure ExecutionResult where
  output : Str
  exitCode : Int
  truncated : Bool
  newCwd : Option Str
deriving DecidableEq, Repr

/-- One chunk arriving on stdout or stderr. -/
inductive OutEvent where
  | out (s : Str)
  | err (s : Str)

/-- One data-event handler: append the chunk, and if the accumulator now
exceeds twice the budget, cut it to the last `maxOutput` characters
(`stdout = stdout.slice(-options.maxOutput)`). -/
def capAccum (m : Nat) (acc chunk : Str) : Str :=
  let acc2 := acc ++ chunk
  if acc2.length > m * 2 then jsSliceNeg acc2 m else acc2

/-- Dispatch a data event to the right accumulator. -/
def collectStep (m : Nat) (st : Str × Str) (e : OutEvent) : Str × Str :=
  match e with
  | .out s => (capAccum m st.1 s, st.2)
  | .err s => (st.1, capAccum m st.2 s)

/-- The stdout/stderr accumulators after the whole event stream. -/
def collectEvents (m : Nat) (events : List OutEvent) : Str × Str :=
  events.foldl (collectStep m) ([], [])

/-- Acceptance test of the JS regex `/^\s*cd\s+(.+?)\s*$/` after the leading
`\s*cd` part: some split `w ++ body ++ t` with `w` nonempty whitespace,
`body` nonempty and free of line terminators (`.` does not match them), and
`t` whitespace. -/
def cdTailAccepts (u : Str) : Bool :=
  (List.range (u.length + 1)).any (fun i =>
    (List.range (u.length + 1)).any (fun e =>
      decide (1 ≤ i) && decide (i < e) && decide (e ≤ u.length) &&
      ((u.take i).all isWsChar) &&
      (((u.drop i).take (e - i)).all (fun c => !(c = '\n' || c = '\r'))) &&
      ((u.drop e).all isWsChar)))

/-- Acceptance test of `command.match(/^\s*cd\s+(.+?)\s*$/)` (`runCommand`
only uses the truthiness of the match). -/
def cdRegexAccepts (l : Str) : Bool :=
  match l.dropWhile isWsChar with
  | 'c' :: 'd' :: u => cdTailAccepts u
  | _ => false

/-- Embedding of the `close` handler of `runCommand`: combine the streams,
truncate to the budget keeping the tail, and on a cd-command with exit code
0 parse the last trimmed output line as the new working directory when it
exists on disk, stripping it from the visible output. -/
def closeResult (m : Nat) (cdMatch : Bool) (exitCode : Option Int)
    (existsFn : Str → Bool) (stdout stderr : Str) : ExecutionResult :=
  let output0 := stdout ++ (if stderr.isEmpty then [] else '\n' :: stderr)
  let trunc := decide (output0.length > m)
  let output1 := jsSliceNeg output0 m
  let cdStep : Str × Option Str :=
    if cdMatch && exitCode == some 0 then
      let lines := splitNl (jsTrim output1)
      let lastLine := jsTrim (lines.getLast?.getD [])
      if !lastLine.isEmpty && existsFn lastLine then
        (joinNl lines.dropLast, some lastLine)
      else (output1, none)
    else (output1, none)
  { output := cdStep.1, exitCode := exitCode.getD 1,
    truncated := trunc, newCwd := cdStep.2 }

/-- Embedding of a whole `runCommand` run that ends in the `close` handler:
detect the cd form, accumulate the events, close. -/
def runCommandModel (m : Nat) (command : Str) (events : List OutEvent)
    (exitCode : Option Int) (existsFn : Str → Bool) : ExecutionResult :=
  closeResult m (cdRegexAccepts command) exitCode existsFn
    (collectEvents m events).1 (collectEvents m events).2

/-! ### Executor lemmas -/

theorem jsSliceNeg_of_le (s : Str) (m : Nat) (h : s.length ≤ m) :
    jsSliceNeg s m = s := by
  unfold jsSliceNeg
  by_cases hm : m = 0
  · simp [hm]
  · have : s.length - m = 0 := Nat.sub_eq_zero_of_le h
    simp [hm, this]

theorem capAccum_length_le (m : Nat) (hm : 1 ≤ m) (acc chunk : Str)
    (hacc : acc.length ≤ m * 2) : (capAccum m acc chunk).length ≤ m * 2 := by
  have hdef : capAccum m acc chunk =
      if (acc ++ chunk).length > m * 2 then jsSliceNeg (acc ++ chunk) m
      else acc ++ chunk := rfl
  rw [hdef]
  split
  · unfold jsSliceNeg
    have hm0 : ¬ m = 0 := by omega
    simp only [hm0, ite_false]
    rw [List.length_drop]
    omega
  · next hsmall =>
    rw [Nat.not_lt] at hsmall
    exact hsmall

theorem collectEvents_length_le (m : Nat) (hm : 1 ≤ m) (events : List OutEvent) :
    (collectEvents m events).1.length ≤ m * 2 ∧
    (collectEvents m events).2.length ≤ m * 2 := by
  suffices h : ∀ st : Str × Str, st.1.length ≤ m * 2 → st.2.length ≤ m * 2 →
      (events.foldl (collectStep m) st).1.length ≤ m * 2 ∧
      (events.foldl (collectStep m) st).2.length ≤ m * 2 by
    exact h ([], []) (by simp) (by simp)
  induction events with
  | nil => intro st h1 h2; simpa using ⟨h1, h2⟩
  | cons e rest ih =>
    intro st h1 h2
    cases e with
    | out s =>
      exact ih (capAccum m st.1 s, st.2) (capAccum_length_le m hm st.1 s h1) h2
    | err s =>
      exact ih (st.1, capAccum m st.2 s) h1 (capAccum_length_le m hm st.2 s h2)

theorem closeResult_truncated (m : Nat) (cd : Bool) (ec : Option Int)
    (f : Str → Bool) (so se : Str) :
    (closeResult m cd ec f so se).truncated =
      decide ((so ++ (if se.isEmpty then [] else '\n' :: se)).length > m) := rfl

theorem closeResult_output_nocd (m : Nat) (ec : Option Int)
    (f : Str → Bool) (so se : Str) :
    (closeResult m false ec f so se).output =
      jsSliceNeg (so ++ (if se.isEmpty then [] else '\n' :: se)) m := by
  unfold closeResult
  simp

/-- C6 (amended): while accumulating, stdout and stderr are each capped at
twice the output budget (for a positive budget); at close, the combined
output is hard-truncated to the budget keeping the tail, and the `truncated`
flag is set exactly when the combined output at close exceeds the budget —
truncation done by the live caps alone does not set it. -/
theorem c6_output_budget (m : Nat) (command : Str) (events : List OutEvent)
    (exitCode : Option Int) (existsFn : Str → Bool) (hm : 1 ≤ m) :
    (collectEvents m events).1.length ≤ m * 2 ∧
    (collectEvents m events).2.length ≤ m * 2 ∧
    (runCommandModel m command events exitCode existsFn).truncated =
      decide (((collectEvents m events).1 ++
        (if (collectEvents m events).2.isEmpty then []
         else '\n' :: (collectEvents m events).2)).length > m) ∧
    (cdRegexAccepts command = false →
      (runCommandModel m command events exitCode existsFn).output =
        jsSliceNeg ((collectEvents m events).1 ++
          (if (collectEvents m events).2.isEmpty then []
           else '\n' :: (collectEvents m events).2)) m) := by
  refine ⟨(collectEvents_length_le m hm events).1,
    (collectEvents_length_le m hm events).2, ?_, ?_⟩
  · unfold runCommandModel
    exact closeResult_truncated m _ exitCode existsFn _ _
  · intro hcd
    unfold runCommandModel
    rw [hcd]
    exact closeResult_output_nocd m exitCode existsFn _ _

/-- Witness for C6 (amended) at budget 1 with an oversized stdout chunk and
a stderr chunk. -/
theorem c6_witness :
    1 ≤ 1 ∧
    (collectEvents 1 [OutEvent.out (str "abc"), OutEvent.err (str "xy")]).1.length ≤ 1 * 2 ∧
    (collectEvents 1 [OutEvent.out (str "abc"), OutEvent.err (str "xy")]).2.length ≤ 1 * 2 :=
  ⟨by decide,
    (c6_output_budget 1 (str "ls") [OutEvent.out (str "abc"), OutEvent.err (str "xy")]
      (some 0) (fun _ => false) (by decide)).1,
    (c6_output_budget 1 (str "ls") [OutEvent.out (str "abc"), OutEvent.err (str "xy")]
      (some 0) (fun _ => false) (by decide)).2.1⟩

/-- Counterexample to C6 as stated: with budget 1, the single stdout chunk
"abc" is truncated by the live cap (the accumulator ends as "c"), yet the
final result reports `truncated = false`, because the flag only compares the
combined length at close against the budget. -/
theorem c6_claim_counterexample :
    (runCommandModel 1 (str "ls") [OutEvent.out (str "abc")] (some 0)
      (fun _ => false)).truncated = false ∧
    (collectEvents 1 [OutEvent.out (str "abc")]).1 ≠ str "abc" := by
  decide

theorem dropWhile_eq_self_append {p : Char → Bool} (l ext : List Char)
    (hl : l.dropWhile p = l) (hne : l ≠ []) :
    (l ++ ext).dropWhile p = l ++ ext := by
  cases l with
  | nil => exact absurd rfl hne
  | cons h t =>
    have hph : p h = false := by
      have h0 := (List.dropWhile_eq_self_iff.mp hl) (by simp)
      simpa using h0
    rw [List.cons_append, List.dropWhile_cons, hph]
    simp

theorem jsTrimStart_append_of (l ext : Str) (h : jsTrimStart l = l) (hne : l ≠ []) :
    jsTrimStart (l ++ ext) = l ++ ext :=
  dropWhile_eq_self_append l ext h hne

theorem jsTrimEnd_append_of (x l : Str) (h : jsTrimEnd l = l) (hne : l ≠ []) :
    jsTrimEnd (x ++ l) = x ++ l := by
  unfold jsTrimEnd at *
  have hrl : (l.reverse).dropWhile isWsChar = l.reverse := by
    have := congrArg List.reverse h
    rwa [List.reverse_reverse] at this
  have hrne : l.reverse ≠ [] := by
    simpa using hne
  rw [List.reverse_append, dropWhile_eq_self_append _ _ hrl hrne,
    List.reverse_append, List.reverse_reverse, List.reverse_reverse]

theorem jsTrimEnd_concat_ws (x : Str) (c : Char) (hc : isWsChar c = true) :
    jsTrimEnd (x ++ [c]) = jsTrimEnd x := by
  unfold jsTrimEnd
  rw [List.reverse_append]
  simp [List.dropWhile_cons, hc]

/-- C7: when the command matches the cd form (so the `pwd` probe was
appended) and the run exits 0 with stdout ending in a final line `p` (the
probe's answer) that exists on disk, the result reports `newCwd = p` with
that line stripped from the visible output; when the reported path does not
exist, or the exit code is nonzero, no `newCwd` is reported. -/
theorem c7_cd_tracks_working_directory (m : Nat) (command pre p : Str)
    (existsFn : Str → Bool)
    (hcd : cdRegexAccepts command = true)
    (hpre : jsTrimStart pre = pre)
    (hp1 : p ≠ [])
    (hp2 : jsTrimStart p = p)
    (hp3 : jsTrimEnd p = p)
    (hp4 : '\n' ∉ p)
    (hlen : (pre ++ '\n' :: (p ++ ['\n'])).length ≤ m) :
    (existsFn p = true →
      (runCommandModel m command [OutEvent.out (pre ++ '\n' :: (p ++ ['\n']))]
        (some 0) existsFn).newCwd = some p ∧
      (runCommandModel m command [OutEvent.out (pre ++ '\n' :: (p ++ ['\n']))]
        (some 0) existsFn).output = pre) ∧
    (existsFn p = false →
      (runCommandModel m command [OutEvent.out (pre ++ '\n' :: (p ++ ['\n']))]
        (some 0) existsFn).newCwd = none ∧
      (runCommandModel m command [OutEvent.out (pre ++ '\n' :: (p ++ ['\n']))]
        (some 0) existsFn).output = pre ++ '\n' :: (p ++ ['\n'])) ∧
    (∀ ec : Option Int, ec ≠ some 0 →
      (runCommandModel m command [OutEvent.out (pre ++ '\n' :: (p ++ ['\n']))]
        ec existsFn).newCwd = none) := by
  set s : Str := pre ++ '\n' :: (p ++ ['\n']) with hs
  have hcol : ∀ ec : Option Int, ∀ f : Str → Bool,
      runCommandModel m command [OutEvent.out s] ec f =
        closeResult m (cdRegexAccepts command) ec f s [] := by
    intro ec f
    have hno : ¬ (s.length > m * 2) := by omega
    have hnocap : capAccum m [] s = s := by
      simp [capAccum, hno]
    simp [runCommandModel, collectEvents, collectStep, hnocap]
  have htrim : jsTrim s = pre ++ '\n' :: p ∨ (pre = [] ∧ jsTrim s = p) := by
    have hassoc : s = (pre ++ '\n' :: p) ++ ['\n'] := by simp [hs]
    have hend : jsTrimEnd s = jsTrimEnd (pre ++ '\n' :: p) := by
      rw [hassoc, jsTrimEnd_concat_ws _ '\n' (by decide)]
    have hend2 : jsTrimEnd (pre ++ '\n' :: p) = pre ++ '\n' :: p := by
      have : pre ++ '\n' :: p = (pre ++ ['\n']) ++ p := by simp
      rw [this, jsTrimEnd_append_of _ _ hp3 hp1]
    cases hpre0 : pre with
    | nil =>
      right
      refine ⟨rfl, ?_⟩
      unfold jsTrim
      rw [hend, hend2, hpre0, List.nil_append]
      show jsTrimStart ('\n' :: p) = p
      unfold jsTrimStart
      rw [List.dropWhile_cons]
      simp only [show isWsChar '\n' = true from rfl, if_true]
      exact hp2
    | cons a t =>
      left
      unfold jsTrim
      rw [hend, hend2, hpre0]
      exact jsTrimStart_append_of (a :: t) ('\n' :: p) (hpre0 ▸ hpre) (by simp)
  have hlines : splitNl (jsTrim s) = splitNl pre ++ [p] ∨
      (pre = [] ∧ splitNl (jsTrim s) = [p]) := by
    rcases htrim with h | ⟨h0, h⟩
    · left; rw [h]; exact splitNl_append_last pre p hp4
    · right; exact ⟨h0, by rw [h]; exact splitNl_no_nl p hp4⟩
  have hslice : jsSliceNeg (s ++ (if ([] : Str).isEmpty then [] else '\n' :: [])) m
      = s := by
    simp only [List.isEmpty_nil, if_pos, List.append_nil]
    exact jsSliceNeg_of_le s m hlen
  have hjp : jsTrim p = p := by
    unfold jsTrim; rw [hp3, hp2]
  have hlast : (splitNl (jsTrim s)).getLast?.getD [] = p := by
    rcases hlines with h | ⟨_, h⟩
    · rw [h, List.getLast?_concat]; rfl
    · rw [h]; rfl
  have hdrop : joinNl (splitNl (jsTrim s)).dropLast = pre := by
    rcases hlines with h | ⟨h0, h⟩
    · rw [h, List.dropLast_concat, joinNl_splitNl]
    · rw [h, h0]; rfl
  have hne : (!p.isEmpty) = true := by
    cases p with
    | nil => exact absurd rfl hp1
    | cons a t => rfl
  refine ⟨?_, ?_, ?_⟩
  · intro hex
    rw [hcol (some 0) existsFn]
    have hcore : closeResult m (cdRegexAccepts command) (some 0) existsFn s [] =
        { output := joinNl (splitNl (jsTrim s)).dropLast, exitCode := 0,
          truncated := decide ((s ++ (if ([] : Str).isEmpty then []
            else '\n' :: [])).length > m),
          newCwd := some p } := by
      unfold closeResult
      rw [hcd]
      simp only [List.isEmpty_nil, if_pos, List.append_nil,
        jsSliceNeg_of_le s m hlen] at *
      simp [hlast, hjp, hne, hex, hlen]
    rw [hcore]
    exact ⟨rfl, hdrop⟩
  · intro hex
    rw [hcol (some 0) existsFn]
    have hcore : closeResult m (cdRegexAccepts command) (some 0) existsFn s [] =
        { output := s, exitCode := 0,
          truncated := decide ((s ++ (if ([] : Str).isEmpty then []
            else '\n' :: [])).length > m),
          newCwd := none } := by
      unfold closeResult
      rw [hcd]
      simp only [List.isEmpty_nil, if_pos, List.append_nil,
        jsSliceNeg_of_le s m hlen] at *
      simp [hlast, hjp, hne, hex, hlen]
    rw [hcore]
    exact ⟨rfl, rfl⟩
  · intro ec hec
    rw [hcol ec existsFn]
    have hb : (ec == some 0) = false := by
      cases ec with
      | none => rfl
      | some v =>
        have : ¬ v = 0 := fun hv => hec (by rw [hv])
        simpa using this
    unfold closeResult
    simp [hb]

/-- Witness for C7 at `cd /tmp && echo hi` with output `"hi\n/tmp\n"` and an
existence oracle accepting `/tmp`. -/
theorem c7_witness :
    cdRegexAccepts (str "cd /tmp && echo hi") = true ∧
    (runCommandModel 60 (str "cd /tmp && echo hi")
      [OutEvent.out ((str "hi") ++ '\n' :: ((str "/tmp") ++ ['\n']))] (some 0)
      (fun q => q == str "/tmp")).newCwd = some (str "/tmp") ∧
    (runCommandModel 60 (str "cd /tmp && echo hi")
      [OutEvent.out ((str "hi") ++ '\n' :: ((str "/tmp") ++ ['\n']))] (some 0)
      (fun q => q == str "/tmp")).output = str "hi" ∧
    (runCommandModel 60 (str "cd /tmp && echo hi")
      [OutEvent.out ((str "hi") ++ '\n' :: ((str "/tmp") ++ ['\n']))] (some 0)
      (fun _ => false)).newCwd = none :=
  ⟨by decide,
    ((c7_cd_tracks_working_directory 60 (str "cd /tmp && echo hi") (str "hi")
      (str "/tmp") (fun q => q == str "/tmp") (by decide) (by decide) (by decide)
      (by decide) (by decide) (by decide) (by decide)).1 (by decide)).1,
    ((c7_cd_tracks_working_directory 60 (str "cd /tmp && echo hi") (str "hi")
      (str "/tmp") (fun q => q == str "/tmp") (by decide) (by decide) (by decide)
      (by decide) (by decide) (by decide) (by decide)).1 (by decide)).2,
    ((c7_cd_tracks_working_directory 60 (str "cd /tmp && echo hi") (str "hi")
      (str "/tmp") (fun _ => false) (by decide) (by decide) (by decide)
      (by decide) (by decide) (by decide) (by decide)).2.1 (by decide)).1⟩

/-! ## Safe delivery: chunking (`splitScreenContent`)

Embedding of `splitScreenContent`, parameterized by the effective limit
(the source uses `TELEGRAM_MAX_LENGTH - 20 = 3980` at both test sites). -/

/-- One loop iteration of `splitScreenContent`: if appending the line via a
newline would exceed the limit, flush the (truthy) current chunk and start a
fresh one from the line; otherwise extend the current chunk (an empty,
falsy, current chunk is replaced by the line). -/
def splitStep (limit : Nat) (st : List Str × Str) (line : Str) : List Str × Str :=
  if (st.2 ++ '\n' :: line).length > limit then
    (if st.2 = [] then st.1 else st.1 ++ [st.2], line)
  else
    (st.1, if st.2 = [] then line else st.2 ++ '\n' :: line)

/-- Embedding of `splitScreenContent` at a given effective limit: short
input passes through whole; otherwise split by lines and re-group them. -/
def splitScreenContentAt (limit : Nat) (screen : Str) : List Str :=
  if screen.length ≤ limit then [screen]
  else
    let st := (splitNl screen).foldl (splitStep limit) ([], [])
    if st.2 = [] then st.1 else st.1 ++ [st.2]

/-- Embedding of `splitScreenContent` at the source's fixed limit
`TELEGRAM_MAX_LENGTH - 20`. -/
def splitScreenContent (screen : Str) : List Str :=
  splitScreenContentAt (4000 - 20) screen

/-! ### Chunking lemmas -/

theorem joinNl_cons_of_ne (x : Str) (L : List Str) (h : L ≠ []) :
    joinNl (x :: L) = x ++ '\n' :: joinNl L := by
  cases L with
  | nil => exact absurd rfl h
  | cons a t => rfl

/-- Merging a line into the current chunk does not change the overall join. -/
theorem joinNl_merge (chunks : List Str) (cur line : Str) (rest : List Str) :
    joinNl (chunks ++ [cur ++ '\n' :: line] ++ rest) =
    joinNl (chunks ++ [cur] ++ line :: rest) := by
  induction chunks with
  | nil =>
    simp only [List.nil_append, List.singleton_append, List.cons_append]
    cases rest with
    | nil => simp [joinNl]
    | cons a t =>
      rw [joinNl_cons_of_ne (cur ++ '\n' :: line) (a :: t) (by simp),
        joinNl_cons_of_ne cur (line :: a :: t) (by simp),
        joinNl_cons_of_ne line (a :: t) (by simp)]
      simp
  | cons c cs ihc =>
    have e1 : (c :: cs) ++ [cur ++ '\n' :: line] ++ rest =
        c :: (cs ++ [cur ++ '\n' :: line] ++ rest) := by simp
    have e2 : (c :: cs) ++ [cur] ++ line :: rest =
        c :: (cs ++ [cur] ++ line :: rest) := by simp
    rw [e1, e2, joinNl_cons_of_ne _ _ (by simp), joinNl_cons_of_ne _ _ (by simp), ihc]

/-- The fold invariant of the chunker: with a nonempty current chunk and all
remaining lines nonempty, the flushed-plus-current join is preserved. -/
theorem splitStep_fold_join (limit : Nat) (lines : List Str) :
    ∀ (chunks : List Str) (cur : Str), cur ≠ [] →
    (∀ l ∈ lines, l ≠ []) →
    (lines.foldl (splitStep limit) (chunks, cur)).2 ≠ [] ∧
    joinNl ((lines.foldl (splitStep limit) (chunks, cur)).1 ++
        [(lines.foldl (splitStep limit) (chunks, cur)).2]) =
      joinNl ((chunks ++ [cur]) ++ lines) := by
  induction lines with
  | nil =>
    intro chunks cur hcur _
    exact ⟨hcur, by simp⟩
  | cons line rest ih =>
    intro chunks cur hcur hall
    have hline : line ≠ [] := hall line (List.mem_cons_self line rest)
    have hrest : ∀ l ∈ rest, l ≠ [] := fun l hl => hall l (List.mem_cons_of_mem line hl)
    rw [List.foldl_cons]
    by_cases hb : (cur ++ '\n' :: line).length > limit
    · have hstep : splitStep limit (chunks, cur) line = (chunks ++ [cur], line) := by
        unfold splitStep
        rw [if_pos hb, if_neg hcur]
      rw [hstep]
      rcases ih (chunks ++ [cur]) line hline hrest with ⟨h1, h2⟩
      refine ⟨h1, ?_⟩
      rw [h2]
      congr 1
      simp
    · have hstep : splitStep limit (chunks, cur) line = (chunks, cur ++ '\n' :: line) := by
        unfold splitStep
        rw [if_neg hb, if_neg hcur]
      rw [hstep]
      rcases ih chunks (cur ++ '\n' :: line) (by simp) hrest with ⟨h1, h2⟩
      refine ⟨h1, ?_⟩
      rw [h2]
      have e3 : chunks ++ [cur ++ '\n' :: line] ++ rest =
          (chunks ++ [cur ++ '\n' :: line]) ++ rest := by simp
      have e4 : chunks ++ [cur] ++ line :: rest = (chunks ++ [cur]) ++ line :: rest := by
        simp
      rw [← e3, ← e4]
      exact joinNl_merge chunks cur line rest

/-- The size invariant of the chunker: every flushed chunk and the current
chunk are within the limit or are single source lines. -/
theorem splitStep_fold_size (limit : Nat) (R : Str → Prop) (lines : List Str) :
    ∀ (chunks : List Str) (cur : Str),
    (∀ c ∈ chunks, c.length ≤ limit ∨ (R c ∧ limit < c.length)) →
    (cur = [] ∨ cur.length ≤ limit ∨ (R cur ∧ limit < cur.length)) →
    (∀ l ∈ lines, R l) →
    (∀ c ∈ (lines.foldl (splitStep limit) (chunks, cur)).1,
      c.length ≤ limit ∨ (R c ∧ limit < c.length)) ∧
    ((lines.foldl (splitStep limit) (chunks, cur)).2 = [] ∨
      (lines.foldl (splitStep limit) (chunks, cur)).2.length ≤ limit ∨
      (R (lines.foldl (splitStep limit) (chunks, cur)).2 ∧
        limit < (lines.foldl (splitStep limit) (chunks, cur)).2.length)) := by
  induction lines with
  | nil => intro chunks cur hch hcur _; exact ⟨hch, hcur⟩
  | cons line rest ih =>
    intro chunks cur hch hcur hall
    have hlineR : R line := hall line (List.mem_cons_self line rest)
    have hrest : ∀ l ∈ rest, R l := fun l hl => hall l (List.mem_cons_of_mem line hl)
    have hlineok : line.length ≤ limit ∨ (R line ∧ limit < line.length) := by
      by_cases hl : line.length ≤ limit
      · exact Or.inl hl
      · exact Or.inr ⟨hlineR, Nat.lt_of_not_le hl⟩
    rw [List.foldl_cons]
    by_cases hb : (cur ++ '\n' :: line).length > limit
    · by_cases hc : cur = []
      · have hstep : splitStep limit (chunks, cur) line = (chunks, line) := by
          unfold splitStep
          rw [if_pos hb, if_pos hc]
        rw [hstep]
        exact ih chunks line hch (Or.inr hlineok) hrest
      · have hstep : splitStep limit (chunks, cur) line = (chunks ++ [cur], line) := by
          unfold splitStep
          rw [if_pos hb, if_neg hc]
        rw [hstep]
        apply ih (chunks ++ [cur]) line _ (Or.inr hlineok) hrest
        intro c hcmem
        rcases List.mem_append.mp hcmem with h | h
        · exact hch c h
        · rcases List.mem_singleton.mp h with rfl
          rcases hcur with h0 | h0 | h0
          · exact absurd h0 hc
          · exact Or.inl h0
          · exact Or.inr h0
    · by_cases hc : cur = []
      · have hstep : splitStep limit (chunks, cur) line = (chunks, line) := by
          unfold splitStep
          rw [if_neg hb, if_pos hc]
        rw [hstep]
        apply ih chunks line hch _ hrest
        have : line.length ≤ limit := by
          rw [hc] at hb
          simp only [List.nil_append, List.length_cons] at hb
          omega
        exact Or.inr (Or.inl this)
      · have hstep : splitStep limit (chunks, cur) line =
            (chunks, cur ++ '\n' :: line) := by
          unfold splitStep
          rw [if_neg hb, if_neg hc]
        rw [hstep]
        apply ih chunks (cur ++ '\n' :: line) hch _ hrest
        exact Or.inr (Or.inl (Nat.le_of_not_lt hb))

/-- C8 (amended): for every limit and every text none of whose lines is
empty, the chunks of `splitScreenContentAt` rejoined with newlines
reproduce the text exactly; and for every text whatsoever, no chunk exceeds
the limit unless that chunk is a single source line longer than the limit. -/
theorem c8_chunks_rejoin (limit : Nat) (screen : Str) :
    ((∀ l ∈ splitNl screen, l ≠ []) →
      joinNl (splitScreenContentAt limit screen) = screen) ∧
    (∀ c ∈ splitScreenContentAt limit screen,
      c.length ≤ limit ∨ (c ∈ splitNl screen ∧ limit < c.length)) := by
  constructor
  · intro hall
    unfold splitScreenContentAt
    by_cases hshort : screen.length ≤ limit
    · simp [hshort, joinNl]
    · simp only [hshort, ite_false, if_neg]
      cases hl : splitNl screen with
      | nil => exact absurd hl (splitNl_ne_nil screen)
      | cons l1 rest =>
        have hl1 : l1 ≠ [] := hall l1 (hl ▸ List.mem_cons_self l1 rest)
        have hrest : ∀ l ∈ rest, l ≠ [] := fun l hm =>
          hall l (hl ▸ List.mem_cons_of_mem l1 hm)
        have hfirst : splitStep limit ([], []) l1 = ([], l1) := by
          unfold splitStep
          by_cases hb : (([] : Str) ++ '\n' :: l1).length > limit <;> simp [hb]
        rw [List.foldl_cons, hfirst]
        rcases splitStep_fold_join limit rest [] l1 hl1 hrest with ⟨h1, h2⟩
        have hj : joinNl (([] ++ [l1] : List Str) ++ rest) = joinNl (l1 :: rest) := by
          simp
        cases hfin : (rest.foldl (splitStep limit) ([], l1)).2 with
        | nil => exact absurd hfin h1
        | cons a t =>
          rw [← hfin]
          simp only [h1, if_neg, ite_false]
          rw [h2, hj, ← hl, joinNl_splitNl]
  · intro c hc
    unfold splitScreenContentAt at hc
    by_cases hshort : screen.length ≤ limit
    · simp only [hshort, ite_true, if_pos, List.mem_singleton] at hc
      subst hc
      exact Or.inl hshort
    · simp only [hshort, ite_false, if_neg] at hc
      rcases splitStep_fold_size limit (fun l => l ∈ splitNl screen)
          (splitNl screen) [] [] (by simp) (Or.inl rfl) (fun l hl => hl) with ⟨h1, h2⟩
      by_cases hfin : ((splitNl screen).foldl (splitStep limit) ([], [])).2 = []
      · rw [if_pos hfin] at hc
        exact h1 c hc
      · rw [if_neg hfin] at hc
        rcases List.mem_append.mp hc with h | h
        · exact h1 c h
        · rcases List.mem_singleton.mp h with rfl
          rcases h2 with h0 | h0 | h0
          · exact absurd h0 hfin
          · exact Or.inl h0
          · exact Or.inr h0

/-- Witness for C8 (amended) at limit 3 on `"ab\ncd"`. -/
theorem c8_witness :
    joinNl (splitScreenContentAt 3 (str "ab\ncd")) = str "ab\ncd" ∧
    (∀ c ∈ splitScreenContentAt 3 (str "ab\ncd"),
      c.length ≤ 3 ∨ (c ∈ splitNl (str "ab\ncd") ∧ 3 < c.length)) :=
  ⟨(c8_chunks_rejoin 3 (str "ab\ncd")).1 (by decide),
    (c8_chunks_rejoin 3 (str "ab\ncd")).2⟩

/-- Counterexample to C8 as stated: at limit 2 the text `"\nab"` (an empty
first line) chunks to `["ab"]` — the empty line is dropped, so no rejoining
of the chunks can reproduce the original text. -/
theorem c8_claim_counterexample :
    splitScreenContentAt 2 (str "\nab") = [str "ab"] ∧
    joinNl (splitScreenContentAt 2 (str "\nab")) ≠ str "\nab" := by
  decide

/-! ## Executor process registry (`runningProcesses`, `abort`)

The `runningProcesses` JS `Map` is modelled as an association list with
`get`/`set`/`delete` following `Map` semantics; killing and spawning the
external processes is abstracted into an effect trace. -/

/-- JS `Map.get`. -/
def mapGet {α : Type} (m : List (Str × α)) (k : Str) : Option α :=
  (m.find? (fun kv => kv.1 == k)).map (fun kv => kv.2)

/-- JS `Map.delete` (by key). -/
def mapDelete {α : Type} (m : List (Str × α)) (k : Str) : List (Str × α) :=
  m.filter (fun kv => !(kv.1 == k))

/-- JS `Map.set`: replace in place when the key exists, else append. -/
def mapSet {α : Type} (m : List (Str × α)) (k : Str) (v : α) : List (Str × α) :=
  if m.any (fun kv => kv.1 == k) then
    m.map (fun kv => if kv.1 == k then (k, v) else kv)
  else m ++ [(k, v)]

/-- Process-level side effects of `runCommand`/`abort`, in order:
`SIGTERM` now, a scheduled `SIGKILL` after the 1000 ms grace window, and the
spawn of the new process. -/
inductive ExecEffect where
  | sigterm (p : Nat)
  | schedSigkill (p : Nat)
  | spawnProc (p : Nat)
deriving DecidableEq, Repr

/-- The `${userId}:${name}` session key of `TerminalExecutor`. -/
def execSessionKey (userId : Nat) (name : Str) : Str :=
  str (Nat.repr userId) ++ ':' :: name

/-- Embedding of `TerminalExecutor.abort`: if a process is registered under
the key, send `SIGTERM`, schedule a `SIGKILL`, and delete the entry;
otherwise do nothing.  Returns the new map, the effects, and the boolean
result. -/
def abortModel (m : List (Str × Nat)) (k : Str) :
    List (Str × Nat) × List ExecEffect × Bool :=
  match mapGet m k with
  | some p => (mapDelete m k, [ExecEffect.sigterm p, ExecEffect.schedSigkill p], true)
  | none => (m, [], false)

/-- Embedding of the start of `TerminalExecutor.runCommand`: first
`this.abort(session)`, then spawn and register the new process under the
key. -/
def runCommandStart (m : List (Str × Nat)) (k : Str) (newp : Nat) :
    List (Str × Nat) × List ExecEffect :=
  (mapSet (abortModel m k).1 k newp,
    (abortModel m k).2.1 ++ [ExecEffect.spawnProc newp])

/-! ### Map lemmas -/

theorem mapGet_delete_self {α : Type} (m : List (Str × α)) (k : Str) :
    mapGet (mapDelete m k) k = none := by
  induction m with
  | nil => rfl
  | cons hd tl ih =>
    unfold mapDelete mapGet at *
    rw [List.filter_cons]
    cases h : hd.1 == k with
    | true => simp only [Bool.not_true, if_neg, ite_false]; exact ih
    | false => simp only [Bool.not_false, if_pos, ite_true, List.find?_cons, h]; exact ih

theorem mapGet_delete_ne {α : Type} (m : List (Str × α)) (k k2 : Str)
    (h : k2 ≠ k) : mapGet (mapDelete m k) k2 = mapGet m k2 := by
  induction m with
  | nil => rfl
  | cons hd tl ih =>
    unfold mapDelete mapGet at *
    rw [List.filter_cons]
    cases hk : hd.1 == k with
    | true =>
      have hk2 : (hd.1 == k2) = false := by
        have : hd.1 = k := by simpa using hk
        subst this
        simpa using fun he => h he.symm
      simpa [List.find?_cons, hk, hk2] using ih
    | false =>
      cases hk2 : hd.1 == k2 with
      | true => simp [List.find?_cons, hk, hk2]
      | false => simpa [List.find?_cons, hk, hk2] using ih

theorem any_key_eq_false_of_none {α : Type} (m : List (Str × α)) (k : Str)
    (h : mapGet m k = none) : m.any (fun kv => kv.1 == k) = false := by
  induction m with
  | nil => rfl
  | cons hd tl ih =>
    unfold mapGet at *
    rw [List.find?_cons] at h
    cases hk : hd.1 == k with
    | true => rw [hk] at h; simp at h
    | false =>
      rw [hk] at h
      simp only [List.any_cons, hk, Bool.false_or]
      exact ih h

theorem mapGet_append_right {α : Type} (m : List (Str × α)) (k : Str) (v : α)
    (h : m.any (fun kv => kv.1 == k) = false) :
    mapGet (m ++ [(k, v)]) k = some v := by
  induction m with
  | nil => simp [mapGet, List.find?_cons]
  | cons hd tl ih =>
    simp only [List.any_cons, Bool.or_eq_false_iff] at h
    unfold mapGet at *
    rw [List.cons_append, List.find?_cons, h.1]
    exact ih h.2

theorem mapGet_append_ne {α : Type} (m : List (Str × α)) (k k2 : Str) (v : α)
    (h : k2 ≠ k) : mapGet (m ++ [(k, v)]) k2 = mapGet m k2 := by
  induction m with
  | nil =>
    have : (k == k2) = false := by simpa using fun he => h he.symm
    simp [mapGet, List.find?_cons, this]
  | cons hd tl ih =>
    unfold mapGet at *
    rw [List.cons_append, List.find?_cons]
    cases hk2 : hd.1 == k2 with
    | true => simp [List.find?_cons, hk2]
    | false => simpa [List.find?_cons, hk2] using ih

theorem nodup_keys_delete {α : Type} (m : List (Str × α)) (k : Str)
    (h : (m.map Prod.fst).Nodup) : ((mapDelete m k).map Prod.fst).Nodup := by
  have hsub : List.Sublist ((mapDelete m k).map Prod.fst) (m.map Prod.fst) :=
    List.Sublist.map Prod.fst (List.filter_sublist m)
  exact h.sublist hsub

theorem key_not_mem_of_none {α : Type} (m : List (Str × α)) (k : Str)
    (h : mapGet m k = none) : k ∉ m.map Prod.fst := by
  intro hmem
  rcases List.mem_map.mp hmem with ⟨kv, hkv, hfst⟩
  have hany := any_key_eq_false_of_none m k h
  rw [List.any_eq_false] at hany
  exact hany kv hkv (by simp [hfst])

/-! ### C9 -/

/-- C9: starting a new command first aborts any process registered under the
same `(user, session)` key — sending `SIGTERM`, scheduling the forced
`SIGKILL` after the grace window, and removing the entry from the map —
before the new process is spawned and registered; the key-uniqueness of the
map is preserved and other keys are untouched. -/
theorem c9_single_process_per_key (m : List (Str × Nat)) (k : Str) (newp : Nat)
    (hwf : (m.map Prod.fst).Nodup) :
    mapGet (runCommandStart m k newp).1 k = some newp ∧
    ((runCommandStart m k newp).1.map Prod.fst).Nodup ∧
    (∀ q, mapGet m k = some q →
      (runCommandStart m k newp).2 =
        [ExecEffect.sigterm q, ExecEffect.schedSigkill q, ExecEffect.spawnProc newp] ∧
      mapGet (mapDelete m k) k = none) ∧
    (mapGet m k = none →
      (runCommandStart m k newp).2 = [ExecEffect.spawnProc newp]) ∧
    (∀ k2, k2 ≠ k →
      mapGet (runCommandStart m k newp).1 k2 = mapGet m k2) := by
  have habort1 : mapGet (abortModel m k).1 k = none := by
    unfold abortModel
    cases hg : mapGet m k with
    | none => simpa using hg
    | some q => simpa using mapGet_delete_self m k
  have hany : ((abortModel m k).1.any (fun kv => kv.1 == k)) = false :=
    any_key_eq_false_of_none _ k habort1
  have hset : mapSet (abortModel m k).1 k newp = (abortModel m k).1 ++ [(k, newp)] := by
    unfold mapSet
    rw [hany]
    simp
  refine ⟨?_, ?_, ?_, ?_, ?_⟩
  · show mapGet (mapSet (abortModel m k).1 k newp) k = some newp
    rw [hset]
    exact mapGet_append_right _ k newp hany
  · show ((mapSet (abortModel m k).1 k newp).map Prod.fst).Nodup
    rw [hset]
    have hnd : ((abortModel m k).1.map Prod.fst).Nodup := by
      unfold abortModel
      cases hg : mapGet m k with
      | none => simpa using hwf
      | some q => simpa using nodup_keys_delete m k hwf
    have hnm : k ∉ (abortModel m k).1.map Prod.fst :=
      key_not_mem_of_none _ k habort1
    rw [List.map_append]
    simp only [List.map_cons, List.map_nil]
    rw [List.nodup_append]
    exact ⟨hnd, List.nodup_singleton k, by simpa using hnm⟩
  · intro q hq
    unfold runCommandStart abortModel
    rw [hq]
    exact ⟨rfl, mapGet_delete_self m k⟩
  · intro hq
    unfold runCommandStart abortModel
    rw [hq]
    simp
  · intro k2 hk2
    show mapGet (mapSet (abortModel m k).1 k newp) k2 = mapGet m k2
    rw [hset, mapGet_append_ne _ k k2 newp hk2]
    unfold abortModel
    cases hg : mapGet m k with
    | none => rfl
    | some q => simpa using mapGet_delete_ne m k k2 hk2

/-- Witness for C9: a map holding process 5 under key `"1:default"`; starting
process 7 under the same key kills 5, removes it, and registers 7. -/
theorem c9_witness :
    mapGet (runCommandStart [(execSessionKey 1 (str "default"), 5)]
      (execSessionKey 1 (str "default")) 7).1 (execSessionKey 1 (str "default")) =
      some 7 ∧
    (runCommandStart [(execSessionKey 1 (str "default"), 5)]
      (execSessionKey 1 (str "default")) 7).2 =
      [ExecEffect.sigterm 5, ExecEffect.schedSigkill 5, ExecEffect.spawnProc 7] :=
  ⟨(c9_single_process_per_key [(execSessionKey 1 (str "default"), 5)]
      (execSessionKey 1 (str "default")) 7 (by decide)).1,
    ((c9_single_process_per_key [(execSessionKey 1 (str "default"), 5)]
      (execSessionKey 1 (str "default")) 7 (by decide)).2.2.1 5 (by decide)).1⟩

/-! ## Session manager (`createSession`)

The in-memory `activeSessions` map keyed by `${userId}:${name}` plus the
durable store written through `saveSession` of the storage/sessions module
(an SQL upsert keyed on `(user_id, name)`). -/

/-- The apostrophe character (used in the thrown error message). -/
def sq : Char := Char.ofNat 39

/-- A `TerminalSession` record. -/
structure TerminalSession where
  name : Str
  userId : Nat
  cwd : Str
  outputBuffer : Str
  isRunning : Bool
deriving DecidableEq, Repr

/-- The `${userId}:${name}` key of the `activeSessions` map. -/
def sessionKey (userId : Nat) (name : Str) : Str :=
  str (Nat.repr userId) ++ ':' :: name

/-- The message of the duplicate-session error thrown by `createSession`. -/
def createErrMsg (name : Str) : Str :=
  str "Session " ++ sq :: (name ++ sq :: str " already exists")

/-- State touched by `createSession`: the in-memory `activeSessions` map and
the records of the durable session store. -/
structure SessionStore where
  active : List (Str × TerminalSession)
  saved : List (Nat × Str × Str)
deriving DecidableEq, Repr

/-- Embedding of `saveSession` (storage/sessions):
`INSERT INTO sessions (user_id, name, cwd) VALUES (?, ?, ?) ON
CONFLICT(user_id, name) DO UPDATE SET cwd = excluded.cwd, ...` — an upsert
keyed on `(user_id, name)`.  A record is modelled as `(user_id, name, cwd)`;
the `id`/`created_at`/`last_used` columns (autoincrement and timestamps) are
outside the model. -/
def saveSession (db : List (Nat × Str × Str)) (userId : Nat) (name cwd : Str) :
    List (Nat × Str × Str) :=
  if db.any (fun r => r.1 == userId && r.2.1 == name) then
    db.map (fun r => if r.1 == userId && r.2.1 == name then (userId, name, cwd) else r)
  else db ++ [(userId, name, cwd)]

/-- JS `cwd || homedir()`: an absent or empty string is falsy. -/
def jsOrStr (a : Option Str) (b : Str) : Str :=
  match a with
  | some s => if s.isEmpty then b else s
  | none => b

/-- Embedding of `createSession(userId, name, cwd?)`: throw on a duplicate
`(userId, name)` key before touching anything, otherwise register the new
session in the map and persist it.  `home` is `homedir()`. -/
def createSession (home : Str) (st : SessionStore) (userId : Nat) (name : Str)
    (cwd : Option Str) : SessionStore × Except Str TerminalSession :=
  let key := sessionKey userId name
  if st.active.any (fun kv => kv.1 == key) then
    (st, Except.error (createErrMsg name))
  else
    let sessionCwd := jsOrStr cwd home
    let session : TerminalSession :=
      { name := name, userId := userId, cwd := sessionCwd,
        outputBuffer := [], isRunning := false }
    ({ active := mapSet st.active key session,
       saved := saveSession st.saved userId name sessionCwd },
     Except.ok session)

/-- C10: `createSession` throws on a duplicate `(userId, name)` key, leaving
the active-session map and the persisted store untouched; otherwise it
appends exactly one new session to the map, persists the record through the
store upsert (a new store record when the key is absent, an in-place cwd
update when it is present), and the session working directory defaults to
the home directory when no cwd is given. -/
theorem c10_create_session (home : Str) (st : SessionStore) (userId : Nat)
    (name : Str) (cwd : Option Str) :
    (st.active.any (fun kv => kv.1 == sessionKey userId name) = true →
      createSession home st userId name cwd =
        (st, Except.error (createErrMsg name))) ∧
    (st.active.any (fun kv => kv.1 == sessionKey userId name) = false →
      (createSession home st userId name cwd).1.active =
        st.active ++ [(sessionKey userId name,
          { name := name, userId := userId, cwd := jsOrStr cwd home,
            outputBuffer := [], isRunning := false })] ∧
      (st.saved.any (fun r => r.1 == userId && r.2.1 == name) = false →
        (createSession home st userId name cwd).1.saved =
          st.saved ++ [(userId, name, jsOrStr cwd home)]) ∧
      (st.saved.any (fun r => r.1 == userId && r.2.1 == name) = true →
        (createSession home st userId name cwd).1.saved =
          st.saved.map (fun r => if r.1 == userId && r.2.1 == name then
            (userId, name, jsOrStr cwd home) else r) ∧
        (createSession home st userId name cwd).1.saved.length =
          st.saved.length) ∧
      (createSession home st userId name cwd).2 =
        Except.ok { name := name, userId := userId, cwd := jsOrStr cwd home,
                    outputBuffer := [], isRunning := false } ∧
      (cwd = none → jsOrStr cwd home = home)) := by
  constructor
  · intro h
    simp [createSession, h]
  · intro h
    have hset : mapSet st.active (sessionKey userId name)
        { name := name, userId := userId, cwd := jsOrStr cwd home,
          outputBuffer := [], isRunning := false } =
        st.active ++ [(sessionKey userId name,
          { name := name, userId := userId, cwd := jsOrStr cwd home,
            outputBuffer := [], isRunning := false })] := by
      unfold mapSet
      rw [h]
      simp
    have hsv : (createSession home st userId name cwd).1.saved =
        saveSession st.saved userId name (jsOrStr cwd home) := by
      simp [createSession, h]
    refine ⟨?_, ?_, ?_, ?_, ?_⟩
    · simp only [createSession, h, Bool.false_eq_true, if_neg, ite_false]
      exact hset
    · intro hs
      rw [hsv]
      unfold saveSession
      rw [hs]
      simp
    · intro hs
      rw [hsv]
      unfold saveSession
      rw [hs]
      exact ⟨by simp, by simp⟩
    · simp [createSession, h]
    · intro hc
      subst hc
      rfl

/-- Witness for C10: creating `(1, "default")` against a map already holding
that key throws and changes nothing; against an empty map and store it
registers the session with the home directory as its cwd and inserts one
store record. -/
theorem c10_witness :
    (createSession (str "/home/u") { active := [(sessionKey 1 (str "default"),
        { name := str "default", userId := 1, cwd := str "/home/u",
          outputBuffer := [], isRunning := false })], saved := [] } 1
        (str "default") none) =
      ({ active := [(sessionKey 1 (str "default"),
        { name := str "default", userId := 1, cwd := str "/home/u",
          outputBuffer := [], isRunning := false })], saved := [] },
       Except.error (createErrMsg (str "default"))) ∧
    (createSession (str "/home/u") { active := [], saved := [] } 1
        (str "default") none).1.active =
      [] ++ [(sessionKey 1 (str "default"),
        { name := str "default", userId := 1, cwd := jsOrStr none (str "/home/u"),
          outputBuffer := [], isRunning := false })] ∧
    (createSession (str "/home/u") { active := [], saved := [] } 1
        (str "default") none).1.saved =
      [] ++ [(1, str "default", jsOrStr none (str "/home/u"))] :=
  ⟨(c10_create_session (str "/home/u") { active := [(sessionKey 1 (str "default"),
      { name := str "default", userId := 1, cwd := str "/home/u",
        outputBuffer := [], isRunning := false })], saved := [] } 1
      (str "default") none).1 (by decide),
    ((c10_create_session (str "/home/u") { active := [], saved := [] } 1
      (str "default") none).2 (by decide)).1,
    ((c10_create_session (str "/home/u") { active := [], saved := [] } 1
      (str "default") none).2 (by decide)).2.1 (by decide)⟩

end Termo
